import Mathlib

/-!
Shallow embedding of the wait-time collection pipeline of
`DSC190-Waittime-API-database` (files `web_scraper/queue_time_full_scrape.py`
and `auto_collection_script.py`), together with theorems settling the
spec's claims about it.

Conventions of the embedding:
* Pure Python functions become Lean functions.
* The network is passed in explicitly: the historical channel receives a
  `FetchResult` (the outcome `requests.get` + `raise_for_status` would have
  produced for the URL); the range driver receives an environment
  `String → FetchResult` keyed by URL; the live channel receives an
  environment `Nat → ParkResp` keyed by park id.
* A fetched page is represented already parsed (`Page`), since
  `BeautifulSoup` itself is an external library: what the code observes of
  it is the table/row/cell tree, which `Page` models.
* Python `float(...)` on the wait-time cell is modelled by `pyFloat`,
  returning `Option Rat` (`none` = `ValueError`); the fragment modelled is
  optional sign / digits / optional decimal point, which covers every value
  a wait-time cell can carry (exponents, inf, nan never occur there).
* An exception escaping a function is an explicit `crash` outcome.
-/

/-! ## String primitives

Structural-recursion implementations of the Python string operations the
code uses (`split` on a one-character separator, `strip`, single-character
`replace`), so that every definition evaluates inside the kernel. -/

/-- Python whitespace for `strip()` / `float()` stripping. -/
def isSpaceChar (c : Char) : Bool :=
  c = ' ' || c = '\t' || c = '\n' || c = '\r' || c = '\x0b' || c = '\x0c'

/-- Strip leading and trailing whitespace (`str.strip()`). -/
def trimChars (cs : List Char) : List Char :=
  ((cs.dropWhile isSpaceChar).reverse.dropWhile isSpaceChar).reverse

/-- Models `str.strip()`. -/
def trimStr (s : String) : String := ⟨trimChars s.data⟩

/-- Models `str.split(sep)` for a one-character separator, on character lists. -/
def splitChars (sep : Char) : List Char → List (List Char)
  | [] => [[]]
  | c :: r =>
    if c = sep then [] :: splitChars sep r
    else
      match splitChars sep r with
      | h :: t => (c :: h) :: t
      | [] => [[c]]

/-- Models `str.split(sep)` for a one-character separator. -/
def splitStr (sep : Char) (s : String) : List String :=
  (splitChars sep s.data).map fun cs => ⟨cs⟩

/-- Models `str.replace(pat, rep)` for a one-character pattern. -/
def replaceCharStr (pat : Char) (rep : String) (s : String) : String :=
  ⟨s.data.foldr (fun c acc => if c = pat then rep.data ++ acc else c :: acc) []⟩

/-- Membership of a character (`c in s`). -/
def containsChar (c : Char) (s : String) : Bool := s.data.contains c

/-! ## HTML model (what the scraper observes through BeautifulSoup) -/

/-- A `<td>` cell: optional nested `<a>` text, optional nested `<span>`
text, and the cell's own text (as `get_text(strip=True)` would return,
i.e. already including nested text; `trim` is applied at extraction). -/
structure Td where
  anchor : Option String
  span : Option String
  text : String
deriving DecidableEq, Repr

/-- A `<tr>` row: its list of `<td>` cells. -/
structure Tr where
  tds : List Td
deriving DecidableEq, Repr

/-- A `<table>`: its `class` attribute string and optional `<tbody>` rows. -/
structure TableEl where
  classes : String
  tbody : Option (List Tr)
deriving DecidableEq, Repr

/-- A parsed HTML document: the tables `soup.find_all('table', ...)` can see. -/
structure Page where
  tables : List TableEl
deriving DecidableEq, Repr

/-- Outcome of `requests.get(url) ; response.raise_for_status()`:
a parsed body, an HTTP 404 (`raise_for_status` raises `HTTPError`), or any
other `RequestException` (connection error, timeout, non-404 HTTP error). -/
inductive FetchResult where
  | ok (body : Page)
  | notFound
  | transportError
deriving Repr

/-! ## Historical day scraper (`scrape_wait_times`) -/

/-- One output row of the historical channel: columns
`Date, Ride, Average Wait Time (mins), Max Wait Time (mins)`. -/
structure CalRecord where
  date : String
  ride : String
  averageWait : Option Rat
  maxWait : Option Rat
deriving DecidableEq, Repr

/-- Outcome of one `scrape_wait_times` call: a returned value
(`some` DataFrame rows or `none`), or an exception escaping the function. -/
inductive ScrapeOutcome where
  | result (df : Option (List CalRecord))
  | crash (msg : String)
deriving DecidableEq, Repr

/-- Python `float(s)` on the fragment relevant to wait-time cells:
optional surrounding whitespace, optional sign, digits with at most one
decimal point, at least one digit. `none` models `ValueError`. -/
def pyFloat (s : String) : Option Rat :=
  let cs := trimChars s.data
  let (neg, cs1) :=
    match cs with
    | '-' :: r => (true, r)
    | '+' :: r => (false, r)
    | r => (false, r)
  match splitAtDot cs1 with
  | (intCs, fracCs) =>
    if intCs.all Char.isDigit ∧ fracCs.all Char.isDigit ∧
        (intCs ≠ [] ∨ fracCs ≠ []) then
      let intV : Nat := intCs.foldl (fun n c => n * 10 + (c.toNat - 48)) 0
      let fracV : Nat := fracCs.foldl (fun n c => n * 10 + (c.toNat - 48)) 0
      let numAbs : Nat := intV * 10 ^ fracCs.length + fracV
      some (mkRat (if neg then -(numAbs : Int) else (numAbs : Int)) (10 ^ fracCs.length))
    else none
where
  /-- Split a character list at the first `'.'` (absent dot: empty fraction). -/
  splitAtDot : List Char → (List Char × List Char)
    | [] => ([], [])
    | '.' :: r => ([], r)
    | c :: r => let (a, b) := splitAtDot r; (c :: a, b)

/-- Ride name from the first cell: prefer the nested `<a>` text, else the
cell's own text (`get_text(strip=True)` modelled by `trim`). -/
def rideNameOf (c : Td) : String :=
  match c.anchor with
  | some s => trimStr s
  | none => trimStr c.text

/-- Wait-time text from the second cell: prefer the nested `<span>` text,
else the cell's own text. -/
def waitTextOf (c : Td) : String :=
  match c.span with
  | some s => trimStr s
  | none => trimStr c.text

/-- The `rides_data` dictionary: insertion-ordered association list from
ride name to the record under construction (Python dicts preserve
insertion order and `values()` lists them in that order). -/
abbrev RD : Type := List (String × CalRecord)

/-- Keys of the dictionary, in insertion order. -/
def keysOf (rd : RD) : List String := rd.map Prod.fst

/-- Dictionary lookup (first entry with the key). -/
def rdLookup (x : String) : RD → Option CalRecord
  | [] => none
  | (k, r) :: t => if k = x then some r else rdLookup x t

/-- Embeds `if ride_name not in rides_data: rides_data[ride_name] = ...` —
append a fresh entry with both wait fields `None` unless the key exists. -/
def initIfAbsent (ds : String) (x : String) (rd : RD) : RD :=
  if x ∈ keysOf rd then rd
  else rd ++ [(x, ⟨ds, x, none, none⟩)]

/-- Embeds `rides_data[ride_name]['Average Wait Time (mins)'] = v`. -/
def setAvg (x : String) (v : Rat) (rd : RD) : RD :=
  rd.map fun kr => if kr.1 = x then (kr.1, { kr.2 with averageWait := some v }) else kr

/-- Embeds `rides_data[ride_name]['Max Wait Time (mins)'] = v`. -/
def setMax (x : String) (v : Rat) (rd : RD) : RD :=
  rd.map fun kr => if kr.1 = x then (kr.1, { kr.2 with maxWait := some v }) else kr

/-- The body of the row loop for one `<tr>` of table number `idx`:
rows with fewer than two cells are skipped; otherwise the entry is
initialised if absent, then table 0 assigns the average (coercing the cell
with `float`, whose `ValueError` is modelled by `none` aborting the whole
parse), table 1 assigns the max, and any later table assigns nothing. -/
def processRow (ds : String) (idx : Nat) (acc : RD) (row : Tr) : Option RD :=
  match row.tds with
  | c0 :: c1 :: _ =>
    let ride_name := rideNameOf c0
    let wait_time := waitTextOf c1
    let acc1 := initIfAbsent ds ride_name acc
    if idx = 0 then
      match pyFloat wait_time with
      | some w => some (setAvg ride_name w acc1)
      | none => none
    else if idx = 1 then
      match pyFloat wait_time with
      | some w => some (setMax ride_name w acc1)
      | none => none
    else some acc1
  | _ => some acc

/-- The row loop over one table's rows. -/
def processRows (ds : String) (idx : Nat) (acc : RD) : List Tr → Option RD
  | [] => some acc
  | row :: rest =>
    match processRow ds idx acc row with
    | none => none
    | some acc1 => processRows ds idx acc1 rest

/-- Rows of a table: empty when it has no `<tbody>` (the code `continue`s,
which is the same as processing zero rows). -/
def rowsOf (t : TableEl) : List Tr := t.tbody.getD []

/-- The `for idx, table in enumerate(tables)` loop from table number `idx`. -/
def processTablesFrom (ds : String) : Nat → RD → List TableEl → Option RD
  | _, acc, [] => some acc
  | idx, acc, t :: ts =>
    match processRows ds idx acc (rowsOf t) with
    | none => none
    | some acc1 => processTablesFrom ds (idx + 1) acc1 ts

/-- Embeds `soup.find_all('table', class_='table is-fullwidth')`: BeautifulSoup
matches a multi-word class string against the complete class attribute. -/
def filteredTables (page : Page) : List TableEl :=
  page.tables.filter fun t => t.classes == "table is-fullwidth"

/-- Date extraction from the URL: split on `/`; with at least 7 parts the
last three are year, month, day; otherwise fall back to the current date
(threaded in as `today`, modelling `datetime.now().strftime('%Y-%m-%d')`). -/
def extract_date (url today : String) : String :=
  let parts := splitStr '/' url
  if parts.length ≥ 7 then
    match parts.reverse with
    | d :: m :: y :: _ => y ++ "-" ++ m ++ "-" ++ d
    | _ => today
  else today

/-- Embeds `list(rides_data.values())`. -/
def toRecords (rd : RD) : List CalRecord := rd.map Prod.snd

/-- The `except requests.exceptions.RequestException` handler. Its log line
is an f-string mentioning `date_str`; the argument is the binding of
`date_str` at the moment the exception was raised. If bound, the print
succeeds and the handler returns `None`; if unbound (every
`RequestException` is raised by the fetch, before `date_str` is assigned),
evaluating the f-string raises `UnboundLocalError`, which is not caught by
the remaining clauses of the same `try` and escapes the function. -/
def handleRequestException (date_str : Option String) : ScrapeOutcome :=
  match date_str with
  | some _ => ScrapeOutcome.result none
  | none => ScrapeOutcome.crash ("UnboundLocalError")

/-- The `except Exception` catch-all handler; same structure as
`handleRequestException` (same f-string pattern, same unbound risk). -/
def handleException (date_str : Option String) : ScrapeOutcome :=
  match date_str with
  | some _ => ScrapeOutcome.result none
  | none => ScrapeOutcome.crash ("UnboundLocalError")

/-- The successful-fetch path of `scrape_wait_times`: extract the date,
filter the tables, return `None` when there are none, run the table loop
(a `float` `ValueError` lands in the catch-all handler with `date_str`
bound by then), return `None` on an empty dictionary, else the records. -/
def scrapeOk (url today : String) (page : Page) : ScrapeOutcome :=
  if (filteredTables page).isEmpty then ScrapeOutcome.result none
  else
    match processTablesFrom (extract_date url today) 0 [] (filteredTables page) with
    | none => handleException (some (extract_date url today))
    | some rides_data =>
      if rides_data.isEmpty then ScrapeOutcome.result none
      else ScrapeOutcome.result (some (toRecords rides_data))

/-- Embeds `scrape_wait_times(url)`. The fetch happens first; any
`RequestException` (404 via `raise_for_status`, or transport failure) is
raised before `date_str` is assigned, so the handler runs with `date_str`
unbound. -/
def scrape_wait_times (url today : String) (fetch : FetchResult) : ScrapeOutcome :=
  match fetch with
  | FetchResult.notFound => handleRequestException none
  | FetchResult.transportError => handleRequestException none
  | FetchResult.ok page => scrapeOk url today page

/-! ## Range driver (`scrape_multiple_days`) -/

/-- Gregorian leap year. -/
def isLeap (y : Nat) : Bool := y % 4 = 0 && (y % 100 ≠ 0 || y % 400 = 0)

/-- Days in a month. -/
def daysInMonth (y m : Nat) : Nat :=
  if m = 2 then (if isLeap y then 29 else 28)
  else if m = 4 ∨ m = 6 ∨ m = 9 ∨ m = 11 then 30
  else 31

/-- A calendar date. -/
structure Date where
  year : Nat
  month : Nat
  day : Nat
deriving DecidableEq, Repr

/-- Embeds `current_date + timedelta(days=1)`. -/
def nextDay (d : Date) : Date :=
  if d.day < daysInMonth d.year d.month then ⟨d.year, d.month, d.day + 1⟩
  else if d.month < 12 then ⟨d.year, d.month + 1, 1⟩
  else ⟨d.year + 1, 1, 1⟩

/-- Days since 1970-01-01 of a civil date (standard days-from-civil
algorithm; used for date comparison, the day count, and weekday). -/
def daysFromCivil (y m d : Nat) : Int :=
  let y' : Int := if m ≤ 2 then (y : Int) - 1 else (y : Int)
  let era : Int := (if 0 ≤ y' then y' else y' - 399) / 400
  let yoe : Int := y' - era * 400
  let mp : Int := ((m : Int) + 9) % 12
  let doy : Int := (153 * mp + 2) / 5 + (d : Int) - 1
  let doe : Int := yoe * 365 + yoe / 4 - yoe / 100 + doy
  era * 146097 + doe - 719468

/-- Day number of a `Date`. -/
def dateToDays (d : Date) : Int := daysFromCivil d.year d.month d.day

/-- Embeds `current_date <= end` (datetimes compare chronologically). -/
def dateLe (a b : Date) : Bool := dateToDays a ≤ dateToDays b

/-- All-digits string to `Nat` (`none` if empty or non-digit). -/
def parseNatAll (s : String) : Option Nat :=
  if s.data.isEmpty then none
  else
    s.data.foldl
      (fun acc c => acc.bind fun n => if c.isDigit then some (n * 10 + (c.toNat - 48)) else none)
      (some 0)

/-- Embeds `datetime.strptime(s, '%Y-%m-%d')`: three dash-separated numeric
fields, with the day validated against the month (ValueError = `none`). -/
def strptimeYmd (s : String) : Option Date :=
  match splitStr '-' s with
  | [ys, ms, ds] => do
    let y ← parseNatAll ys
    let m ← parseNatAll ms
    let d ← parseNatAll ds
    if 1 ≤ m ∧ m ≤ 12 ∧ 1 ≤ d ∧ d ≤ daysInMonth y m then some ⟨y, m, d⟩ else none
  | _ => none

/-- Zero-padded two-digit field (`strftime('%m')`, `strftime('%d')`). -/
def pad2 (n : Nat) : String := if n < 10 then ("0") ++ toString n else toString n

/-- Zero-padded four-digit year (`strftime('%Y')`). -/
def pad4 (n : Nat) : String :=
  if n < 10 then ("000") ++ toString n
  else if n < 100 then ("00") ++ toString n
  else if n < 1000 then ("0") ++ toString n
  else toString n

/-- The URL built for one day of the range. -/
def calendarUrl (park_id : Nat) (d : Date) : String :=
  "https://queue-times.com/parks/" ++ toString park_id ++ "/calendar/" ++
    pad4 d.year ++ "/" ++ pad2 d.month ++ "/" ++ pad2 d.day

/-- Outcome of `scrape_multiple_days`: a combined DataFrame (possibly
empty) or an exception escaping the run. -/
inductive MultiOutcome where
  | table (recs : List CalRecord)
  | crash (msg : String)
deriving DecidableEq, Repr

/-- Embeds `pd.concat(all_data)` and the `if all_data:` guard: concatenate the
per-day frames, or the explicitly empty frame when none succeeded. -/
def finalizeDays (all_data : List (List CalRecord)) : MultiOutcome :=
  if all_data.isEmpty then MultiOutcome.table []
  else MultiOutcome.table (all_data.foldr (fun a b => a ++ b) [])

/-- The `while current_date <= end:` loop. `fuel` bounds the number of
iterations; the driver supplies the exact day count, so the loop always
exits through the date comparison or completes the range. An exception
escaping `scrape_wait_times` is not caught here and aborts the run. -/
def scrapeDaysLoop (env : String → FetchResult) (today : String) (park_id : Nat)
    (endD : Date) : Nat → Date → List (List CalRecord) → MultiOutcome
  | 0, _, all_data => finalizeDays all_data
  | fuel + 1, cur, all_data =>
    if dateLe cur endD then
      match scrape_wait_times (calendarUrl park_id cur) today (env (calendarUrl park_id cur)) with
      | ScrapeOutcome.crash m => MultiOutcome.crash m
      | ScrapeOutcome.result (some df) =>
        scrapeDaysLoop env today park_id endD fuel (nextDay cur) (all_data ++ [df])
      | ScrapeOutcome.result none =>
        scrapeDaysLoop env today park_id endD fuel (nextDay cur) all_data
    else finalizeDays all_data

/-- Embeds `scrape_multiple_days(start_date, end_date, park_id)`. An unparsable
date raises `ValueError` out of `strptime` (uncaught). -/
def scrape_multiple_days (start_date end_date : String) (park_id : Nat)
    (env : String → FetchResult) (today : String) : MultiOutcome :=
  match strptimeYmd start_date, strptimeYmd end_date with
  | some s, some e =>
    scrapeDaysLoop env today park_id e (dateToDays e - dateToDays s + 1).toNat s []
  | _, _ => MultiOutcome.crash ("ValueError")

/-! ## Live snapshot collector (`auto_collection_script.py`) -/

/-- One ride object of the live JSON API. -/
structure Ride where
  name : String
  wait_time : Int
  last_updated : Option String
deriving DecidableEq, Repr

/-- One land object: its rides. -/
structure Land where
  rides : List Ride
deriving DecidableEq, Repr

/-- A park response: its lands (a successfully fetched and decoded
`queue_times.json`; the live channel has no error handling of its own, and
no claim concerns a malformed live response). -/
structure ParkResp where
  lands : List Land
deriving DecidableEq, Repr

/-- The time-of-day component `dt.time()`. -/
structure TimeOfDay where
  hour : Nat
  minute : Nat
  second : Nat
  microsecond : Nat
deriving DecidableEq, Repr

/-- A parsed `datetime`: calendar fields, time fields, optional UTC offset
in minutes (`+00:00` after the `Z` replacement gives `some 0`). -/
structure PyDateTime where
  year : Nat
  month : Nat
  day : Nat
  hour : Nat
  minute : Nat
  second : Nat
  microsecond : Nat
  utcOffsetMinutes : Option Int
deriving DecidableEq, Repr

/-- Embeds `dt.time()`. -/
def PyDateTime.timeOfDay (dt : PyDateTime) : TimeOfDay :=
  ⟨dt.hour, dt.minute, dt.second, dt.microsecond⟩

/-- Embeds `dt.weekday()`: Monday = 0 … Sunday = 6, from the calendar date only
(1970-01-01, day number 0, was a Thursday = 3). -/
def pyWeekday (dt : PyDateTime) : Nat :=
  (Int.emod (daysFromCivil dt.year dt.month dt.day + 3) 7).toNat

/-- A digit string of exactly `k` characters. -/
def parseFixed (k : Nat) (s : String) : Option Nat :=
  if s.data.length = k then parseNatAll s else none

/-- The `YYYY-MM-DD` part of an ISO timestamp. -/
def parseDatePart (s : String) : Option (Nat × Nat × Nat) :=
  match splitStr '-' s with
  | [ys, ms, ds] => do
    let y ← parseFixed 4 ys
    let m ← parseFixed 2 ms
    let d ← parseFixed 2 ds
    if 1 ≤ m ∧ m ≤ 12 ∧ 1 ≤ d ∧ d ≤ daysInMonth y m then some (y, m, d) else none
  | _ => none

/-- An `HH:MM` UTC-offset body, in minutes. -/
def parseOffsetPart (s : String) : Option Int :=
  match splitStr ':' s with
  | [hs, ms] => do
    let h ← parseFixed 2 hs
    let m ← parseFixed 2 ms
    if h ≤ 23 ∧ m ≤ 59 then some ((h : Int) * 60 + (m : Int)) else none
  | _ => none

/-- An `HH:MM:SS[.ffffff]` clock part: hours, minutes, seconds, microseconds. -/
def parseHms (s : String) : Option (Nat × Nat × Nat × Nat) :=
  match splitStr ':' s with
  | [hs, ms, ss] => do
    let h ← parseFixed 2 hs
    let m ← parseFixed 2 ms
    let (sec, us) ←
      (match splitStr '.' ss with
       | [s1] => do
         let v ← parseFixed 2 s1
         some (v, 0)
       | [s1, fs] => do
         let v ← parseFixed 2 s1
         let f ← parseNatAll fs
         if fs.length ≤ 6 then some (v, f * 10 ^ (6 - fs.length)) else none
       | _ => none)
    if h ≤ 23 ∧ m ≤ 59 ∧ sec ≤ 59 then some (h, m, sec, us) else none
  | _ => none

/-- The clock-and-offset part of an ISO timestamp. -/
def parseTimePart (s : String) : Option (Nat × Nat × Nat × Nat × Option Int) :=
  if containsChar '+' s then
    match splitStr '+' s with
    | [hms, off] => do
      let (h, m, sec, us) ← parseHms hms
      let o ← parseOffsetPart off
      some (h, m, sec, us, some o)
    | _ => none
  else if containsChar '-' s then
    match splitStr '-' s with
    | [hms, off] => do
      let (h, m, sec, us) ← parseHms hms
      let o ← parseOffsetPart off
      some (h, m, sec, us, some (-o))
    | _ => none
  else do
    let (h, m, sec, us) ← parseHms s
    some (h, m, sec, us, none)

/-- Embeds `datetime.fromisoformat` on the shapes the live API produces after the
`Z → +00:00` replacement: `YYYY-MM-DD[THH:MM:SS[.ffffff][±HH:MM]]`.
`none` models the `ValueError` it raises on anything malformed. -/
def fromisoformat (s : String) : Option PyDateTime :=
  match splitStr 'T' s with
  | [ds, ts] => do
    let (y, m, d) ← parseDatePart ds
    let (h, mi, sec, us, off) ← parseTimePart ts
    some ⟨y, m, d, h, mi, sec, us, off⟩
  | [ds] => do
    let (y, m, d) ← parseDatePart ds
    some ⟨y, m, d, 0, 0, 0, 0, none⟩
  | _ => none

/-- The `day_of_week_map` dictionary of the source, as an association list. -/
def day_of_week_map : List (Nat × String) :=
  [(0, "Monday"), (1, "Tuesday"), (2, "Wednesday"), (3, "Thursday"),
   (4, "Friday"), (5, "Saturday"), (6, "Sunday")]

/-- The `targets` park dictionary of the source. -/
def targets : List (Nat × String) :=
  [(16, "Disneyland"),
   (17, "Disney California Adventure"),
   (42, "Six Flags Magic Mountain"),
   (61, "Knott\x27 Berry Farm"),
   (66, "Universal Studios Hollywood")]

/-- One emitted live record, with the source's column order. -/
structure LiveRow where
  park : String
  ride : String
  wait_time : Int
  day_of_week : String
  timestamp : PyDateTime
  time : TimeOfDay
  month : Nat
  year : Nat
deriving DecidableEq, Repr

/-- Result of the loop body for one ride: skipped (`continue` on a null
`last_updated`), one emitted row, or an uncaught exception
(`fromisoformat` `ValueError`, or a `KeyError` on the weekday map). -/
inductive RideResult where
  | skip
  | emit (row : LiveRow)
  | crash
deriving DecidableEq, Repr

/-- The loop body of `main` for one ride. -/
def processRide (park_name : String) (ride : Ride) : RideResult :=
  match ride.last_updated with
  | none => RideResult.skip
  | some ts =>
    match fromisoformat (replaceCharStr 'Z' ("+00:00") ts) with
    | none => RideResult.crash
    | some dt =>
      match List.lookup (pyWeekday dt) day_of_week_map with
      | none => RideResult.crash
      | some dow =>
        RideResult.emit
          ⟨park_name, ride.name, ride.wait_time, dow, dt, dt.timeOfDay, dt.month, dt.year⟩

/-- The `for ride in region['rides']` loop, appending to `rows`; `none`
models a run aborted by an uncaught exception. -/
def processRides (park_name : String) (acc : List LiveRow) : List Ride → Option (List LiveRow)
  | [] => some acc
  | r :: rs =>
    match processRide park_name r with
    | RideResult.skip => processRides park_name acc rs
    | RideResult.crash => none
    | RideResult.emit row => processRides park_name (acc ++ [row]) rs

/-- The `for region in parks['lands']` loop. -/
def processLands (park_name : String) (acc : List LiveRow) : List Land → Option (List LiveRow)
  | [] => some acc
  | l :: ls =>
    match processRides park_name acc l.rides with
    | none => none
    | some acc1 => processLands park_name acc1 ls

/-- The `for park_id, park_name in targets.items()` loop; `env` is the live
API keyed by park id. -/
def collectTargets (env : Nat → ParkResp) (acc : List LiveRow) :
    List (Nat × String) → Option (List LiveRow)
  | [] => some acc
  | (park_id, park_name) :: ps =>
    match processLands park_name acc (env park_id).lands with
    | none => none
    | some acc1 => collectTargets env acc1 ps

/-- The row collection of `main` over a target list: the rows handed to
`pd.DataFrame` (persistence is external and not modelled). -/
def collectRows (ts : List (Nat × String)) (env : Nat → ParkResp) : Option (List LiveRow) :=
  collectTargets env [] ts

/-- Modelled from the spec (its 0=Monday … 6=Sunday English-name
convention, §4.1/§8); compared against the source's `day_of_week_map`. -/
def englishWeekdayName : Nat → String
  | 0 => "Monday"
  | 1 => "Tuesday"
  | 2 => "Wednesday"
  | 3 => "Thursday"
  | 4 => "Friday"
  | 5 => "Saturday"
  | 6 => "Sunday"
  | _ => "Invalid"

/-! ## Statement-level views of a page

Definitions used to state properties of the scraper: the key/value text a
well-formed row contributes, and the last value a table assigns to a ride
(later rows of the same table overwrite earlier ones, as the dictionary
assignment does). -/

/-- The (ride name, wait text) a row contributes, if it has ≥ 2 cells. -/
def rowKey (row : Tr) : Option (String × String) :=
  match row.tds with
  | c0 :: c1 :: _ => some (rideNameOf c0, waitTextOf c1)
  | _ => none

/-- The contributions of a row list, in order. -/
def rowAssigns (rows : List Tr) : List (String × String) := rows.filterMap rowKey

/-- The contributions of one table. -/
def tableAssigns (t : TableEl) : List (String × String) := rowAssigns (rowsOf t)

/-- The last value assigned to key `x` by a contribution list, if any. -/
def lastVal (x : String) : List (String × String) → Option String
  | [] => none
  | (k, s) :: t =>
    match lastVal x t with
    | some v => some v
    | none => if k = x then some s else none

/-- All entries of the dictionary are keyed by their own ride name and
carry the day's date (invariant of the construction). -/
def EntriesKeyed (ds : String) (rd : RD) : Prop :=
  ∀ kr ∈ rd, kr.2.ride = kr.1 ∧ kr.2.date = ds

/-! ## Concrete fixtures for witnesses and counterexamples -/

/-- A plain-text cell. -/
def tdOf (s : String) : Td := ⟨none, none, s⟩

/-- A two-cell row from (ride, wait) texts. -/
def rowOf (p : String × String) : Tr := ⟨[tdOf p.1, tdOf p.2]⟩

/-- A matching results table from (ride, wait) rows. -/
def tblOf (rows : List (String × String)) : TableEl :=
  ⟨"table is-fullwidth", some (rows.map rowOf)⟩

/-- The calendar URL of 2024-01-01 for park 16. -/
def url0 : String := "https://queue-times.com/parks/16/calendar/2024/01/01"

/-- An arbitrary current processing date for the fallback path. -/
def today0 : String := "2024-06-15"

/-- Average and max tables both listing ride A (at 10 and 25). -/
def pageA : Page := ⟨[tblOf [("Ride A", "10")], tblOf [("Ride A", "25")]]⟩

/-- Day-3 page: both tables list ride B (at 5 and 15). -/
def pageB : Page := ⟨[tblOf [("Ride B", "5")], tblOf [("Ride B", "15")]]⟩

/-- Three matching tables; ride X appears only in the third. -/
def pageThree : Page :=
  ⟨[tblOf [("Ride A", "10")], tblOf [("Ride A", "25")], tblOf [("X", "99")]]⟩

/-- Ride B appears only in the second (max) table. -/
def pageOnlyMax : Page :=
  ⟨[tblOf [("Ride A", "10")], tblOf [("Ride A", "25"), ("Ride B", "40")]]⟩

/-- Ride C appears only in the first (average) table. -/
def pageOnlyAvg : Page :=
  ⟨[tblOf [("Ride A", "10"), ("Ride C", "7")], tblOf [("Ride A", "25")]]⟩

/-- A page whose only table does not carry the results-table class. -/
def pageNoTables : Page := ⟨[⟨"table is-striped", some [rowOf ("Ride A", "10")]⟩]⟩

/-- A matching table whose wait cell is not numeric. -/
def pageBadCell : Page := ⟨[tblOf [("Ride A", "N/A"), ("Ride B", "10")]]⟩

/-- Network for the 3-day range with day 2 returning HTTP 404. -/
def envNotFoundDay2 : String → FetchResult := fun url =>
  if url = "https://queue-times.com/parks/16/calendar/2024/01/01" then FetchResult.ok pageA
  else if url = "https://queue-times.com/parks/16/calendar/2024/01/02" then FetchResult.notFound
  else if url = "https://queue-times.com/parks/16/calendar/2024/01/03" then FetchResult.ok pageB
  else FetchResult.transportError

/-- Same range but day 2 serves a page with no matching tables. -/
def envEmptyDay2 : String → FetchResult := fun url =>
  if url = "https://queue-times.com/parks/16/calendar/2024/01/02" then FetchResult.ok ⟨[]⟩
  else envNotFoundDay2 url

/-- Network on which every day returns HTTP 404. -/
def envAll404 : String → FetchResult := fun _ => FetchResult.notFound

/-- Day-1 output records. -/
def recsDay1 : List CalRecord := [⟨"2024-01-01", "Ride A", some 10, some 25⟩]

/-- Day-3 output records. -/
def recsDay3 : List CalRecord := [⟨"2024-01-03", "Ride B", some 5, some 15⟩]

/-- A live ride with a UTC `last_updated` timestamp (2024-01-02, a Tuesday). -/
def ride0 : Ride := ⟨"Space Mountain", 30, some ("2024-01-02T08:30:00Z")⟩

/-- A live ride with `last_updated = null`. -/
def rideNull : Ride := ⟨"Closed Ride", 0, none⟩

/-- A one-park live environment: one land with `ride0` and `rideNull`. -/
def envLive : Nat → ParkResp := fun _ => ⟨[⟨[ride0, rideNull]⟩]⟩

/-- The parsed timestamp of `ride0`. -/
def dt0 : PyDateTime := ⟨2024, 1, 2, 8, 30, 0, 0, some 0⟩

/-- The single row the live collector emits on `envLive`. -/
def row0 : LiveRow :=
  ⟨"Disneyland", "Space Mountain", 30, "Tuesday", dt0, ⟨8, 30, 0, 0⟩, 1, 2024⟩

/-! ## Dictionary lemmas -/

theorem keysOf_nil : keysOf ([] : RD) = [] := rfl

theorem keysOf_cons (k : String) (r : CalRecord) (t : RD) :
    keysOf ((k, r) :: t) = k :: keysOf t := rfl

theorem keysOf_append (a b : RD) : keysOf (a ++ b) = keysOf a ++ keysOf b := by
  simp [keysOf]

theorem rdLookup_nil (x : String) : rdLookup x [] = none := rfl

theorem rdLookup_cons (x k : String) (r : CalRecord) (t : RD) :
    rdLookup x ((k, r) :: t) = if k = x then some r else rdLookup x t := rfl

theorem rdLookup_eq_none_iff {x : String} {rd : RD} :
    rdLookup x rd = none ↔ x ∉ keysOf rd := by
  induction rd with
  | nil => simp [rdLookup_nil, keysOf_nil]
  | cons kr t ih =>
    obtain ⟨k, r⟩ := kr
    rw [rdLookup_cons, keysOf_cons]
    by_cases h : k = x
    · subst h; simp
    · rw [if_neg h, ih]
      constructor
      · intro hn hmem
        rcases List.mem_cons.mp hmem with he | ht
        · exact h he.symm
        · exact hn ht
      · intro hn ht
        exact hn (List.mem_cons_of_mem _ ht)

theorem rdLookup_append_left {x : String} {a : RD} (b : RD) (h : rdLookup x a = none) :
    rdLookup x (a ++ b) = rdLookup x b := by
  induction a with
  | nil => simp
  | cons kr t ih =>
    obtain ⟨k, r⟩ := kr
    rw [rdLookup_cons] at h
    by_cases hk : k = x
    · simp [hk] at h
    · rw [List.cons_append, rdLookup_cons, if_neg hk]
      exact ih (by simpa [hk] using h)

theorem rdLookup_initIfAbsent_self (ds x : String) (rd : RD) :
    rdLookup x (initIfAbsent ds x rd) =
      some ((rdLookup x rd).getD ⟨ds, x, none, none⟩) := by
  unfold initIfAbsent
  by_cases h : x ∈ keysOf rd
  · simp only [h, if_true]
    rcases hlk : rdLookup x rd with _ | r
    · exact absurd (rdLookup_eq_none_iff.mp hlk) (by simp [h])
    · simp [hlk]
  · simp only [h, if_false]
    rw [rdLookup_append_left _ (rdLookup_eq_none_iff.mpr h),
      rdLookup_eq_none_iff.mpr h]
    simp [rdLookup_cons]

theorem rdLookup_initIfAbsent_ne (ds : String) {x y : String} (rd : RD) (h : y ≠ x) :
    rdLookup y (initIfAbsent ds x rd) = rdLookup y rd := by
  unfold initIfAbsent
  by_cases hm : x ∈ keysOf rd
  · simp [hm]
  · simp only [hm, if_false]
    rcases hlk : rdLookup y rd with _ | r
    · rw [rdLookup_append_left _ hlk, rdLookup_cons,
        if_neg (fun hh : x = y => h hh.symm), rdLookup_nil]

    · induction rd with
      | nil => simp [rdLookup_nil] at hlk
      | cons kr t ih =>
        obtain ⟨k, r'⟩ := kr
        rw [rdLookup_cons] at hlk
        by_cases hk : k = y
        · rw [if_pos hk] at hlk
          rw [List.cons_append, rdLookup_cons, if_pos hk, hlk]
        · rw [if_neg hk] at hlk
          rw [List.cons_append, rdLookup_cons, if_neg hk]
          exact ih (by
            intro hmem
            exact hm (by rw [keysOf_cons]; exact List.mem_cons_of_mem _ hmem)) hlk

theorem setAvg_nil (x : String) (v : Rat) : setAvg x v [] = [] := rfl

theorem setAvg_cons (x : String) (v : Rat) (k : String) (r : CalRecord) (t : RD) :
    setAvg x v ((k, r) :: t) =
      (if k = x then (k, { r with averageWait := some v }) else (k, r)) :: setAvg x v t := rfl

theorem setMax_nil (x : String) (v : Rat) : setMax x v [] = [] := rfl

theorem setMax_cons (x : String) (v : Rat) (k : String) (r : CalRecord) (t : RD) :
    setMax x v ((k, r) :: t) =
      (if k = x then (k, { r with maxWait := some v }) else (k, r)) :: setMax x v t := rfl

theorem rdLookup_setAvg_self (x : String) (v : Rat) (rd : RD) :
    rdLookup x (setAvg x v rd) =
      (rdLookup x rd).map fun r => { r with averageWait := some v } := by
  induction rd with
  | nil => simp [setAvg_nil, rdLookup_nil]
  | cons kr t ih =>
    obtain ⟨k, r⟩ := kr
    rw [setAvg_cons]
    by_cases hk : k = x
    · rw [if_pos hk, rdLookup_cons, if_pos hk, rdLookup_cons, if_pos hk]
      rfl
    · rw [if_neg hk, rdLookup_cons, if_neg hk, rdLookup_cons, if_neg hk]
      exact ih

theorem rdLookup_setAvg_ne {x y : String} (v : Rat) (rd : RD) (h : y ≠ x) :
    rdLookup y (setAvg x v rd) = rdLookup y rd := by
  induction rd with
  | nil => simp [setAvg_nil]
  | cons kr t ih =>
    obtain ⟨k, r⟩ := kr
    rw [setAvg_cons]
    by_cases hk : k = x
    · have hky : ¬ k = y := fun hh => h (hh ▸ hk ▸ rfl)
      rw [if_pos hk, rdLookup_cons, if_neg hky, rdLookup_cons, if_neg hky]
      exact ih
    · by_cases hky : k = y
      · rw [if_neg hk, rdLookup_cons, if_pos hky, rdLookup_cons, if_pos hky]
      · rw [if_neg hk, rdLookup_cons, if_neg hky, rdLookup_cons, if_neg hky]
        exact ih

theorem rdLookup_setMax_self (x : String) (v : Rat) (rd : RD) :
    rdLookup x (setMax x v rd) =
      (rdLookup x rd).map fun r => { r with maxWait := some v } := by
  induction rd with
  | nil => simp [setMax_nil, rdLookup_nil]
  | cons kr t ih =>
    obtain ⟨k, r⟩ := kr
    rw [setMax_cons]
    by_cases hk : k = x
    · rw [if_pos hk, rdLookup_cons, if_pos hk, rdLookup_cons, if_pos hk]
      rfl
    · rw [if_neg hk, rdLookup_cons, if_neg hk, rdLookup_cons, if_neg hk]
      exact ih

theorem rdLookup_setMax_ne {x y : String} (v : Rat) (rd : RD) (h : y ≠ x) :
    rdLookup y (setMax x v rd) = rdLookup y rd := by
  induction rd with
  | nil => simp [setMax_nil]
  | cons kr t ih =>
    obtain ⟨k, r⟩ := kr
    rw [setMax_cons]
    by_cases hk : k = x
    · have hky : ¬ k = y := fun hh => h (hh ▸ hk ▸ rfl)
      rw [if_pos hk, rdLookup_cons, if_neg hky, rdLookup_cons, if_neg hky]
      exact ih
    · by_cases hky : k = y
      · rw [if_neg hk, rdLookup_cons, if_pos hky, rdLookup_cons, if_pos hky]
      · rw [if_neg hk, rdLookup_cons, if_neg hky, rdLookup_cons, if_neg hky]
        exact ih

/-! ## Invariant preservation -/

theorem keysOf_setAvg (x : String) (v : Rat) (rd : RD) :
    keysOf (setAvg x v rd) = keysOf rd := by
  induction rd with
  | nil => rfl
  | cons kr t ih =>
    obtain ⟨k, r⟩ := kr
    rw [setAvg_cons]
    by_cases hk : k = x
    · rw [if_pos hk, keysOf_cons, keysOf_cons, ih]
    · rw [if_neg hk, keysOf_cons, keysOf_cons, ih]

theorem keysOf_setMax (x : String) (v : Rat) (rd : RD) :
    keysOf (setMax x v rd) = keysOf rd := by
  induction rd with
  | nil => rfl
  | cons kr t ih =>
    obtain ⟨k, r⟩ := kr
    rw [setMax_cons]
    by_cases hk : k = x
    · rw [if_pos hk, keysOf_cons, keysOf_cons, ih]
    · rw [if_neg hk, keysOf_cons, keysOf_cons, ih]

theorem keysOf_initIfAbsent (ds x : String) (rd : RD) :
    keysOf (initIfAbsent ds x rd) =
      if x ∈ keysOf rd then keysOf rd else keysOf rd ++ [x] := by
  unfold initIfAbsent
  by_cases h : x ∈ keysOf rd
  · rw [if_pos h, if_pos h]
  · rw [if_neg h, if_neg h, keysOf_append, keysOf_cons, keysOf_nil]

theorem nodup_initIfAbsent (ds x : String) {rd : RD} (h : (keysOf rd).Nodup) :
    (keysOf (initIfAbsent ds x rd)).Nodup := by
  rw [keysOf_initIfAbsent]
  by_cases hm : x ∈ keysOf rd
  · rwa [if_pos hm]
  · rw [if_neg hm]
    rw [List.nodup_append]
    exact ⟨h, List.nodup_singleton x, fun b hb hbx =>
      hm (by rwa [List.mem_singleton.mp hbx] at hb)⟩

theorem entriesKeyed_initIfAbsent (ds x : String) {rd : RD} (h : EntriesKeyed ds rd) :
    EntriesKeyed ds (initIfAbsent ds x rd) := by
  unfold initIfAbsent
  by_cases hm : x ∈ keysOf rd
  · rwa [if_pos hm]
  · rw [if_neg hm]
    intro kr hkr
    rcases List.mem_append.mp hkr with hl | hr
    · exact h kr hl
    · rw [List.mem_singleton.mp hr]
      exact ⟨rfl, rfl⟩

theorem entriesKeyed_setAvg (ds x : String) (v : Rat) {rd : RD} (h : EntriesKeyed ds rd) :
    EntriesKeyed ds (setAvg x v rd) := by
  intro kr hkr
  unfold setAvg at hkr
  rcases List.mem_map.mp hkr with ⟨kr0, hkr0, heq⟩
  obtain ⟨hride, hdate⟩ := h kr0 hkr0
  by_cases hk : kr0.1 = x
  · rw [if_pos hk] at heq
    rw [← heq]
    exact ⟨hride, hdate⟩
  · rw [if_neg hk] at heq
    rw [← heq]
    exact ⟨hride, hdate⟩

theorem entriesKeyed_setMax (ds x : String) (v : Rat) {rd : RD} (h : EntriesKeyed ds rd) :
    EntriesKeyed ds (setMax x v rd) := by
  intro kr hkr
  unfold setMax at hkr
  rcases List.mem_map.mp hkr with ⟨kr0, hkr0, heq⟩
  obtain ⟨hride, hdate⟩ := h kr0 hkr0
  by_cases hk : kr0.1 = x
  · rw [if_pos hk] at heq
    rw [← heq]
    exact ⟨hride, hdate⟩
  · rw [if_neg hk] at heq
    rw [← heq]
    exact ⟨hride, hdate⟩

theorem processRow_skip {row : Tr} (ds : String) (idx : Nat) (acc : RD)
    (h : rowKey row = none) : processRow ds idx acc row = some acc := by
  unfold rowKey at h
  unfold processRow
  rcases htds : row.tds with _ | ⟨c0, _ | ⟨c1, cr⟩⟩
  · rfl
  · rfl
  · rw [htds] at h
    simp at h

theorem processRow_zero {row : Tr} {k s : String} (ds : String) (acc : RD)
    (h : rowKey row = some (k, s)) :
    processRow ds 0 acc row =
      match pyFloat s with
      | some w => some (setAvg k w (initIfAbsent ds k acc))
      | none => none := by
  unfold rowKey at h
  unfold processRow
  rcases htds : row.tds with _ | ⟨c0, _ | ⟨c1, cr⟩⟩
  · rw [htds] at h; simp at h
  · rw [htds] at h; simp at h
  · rw [htds] at h
    simp only [Option.some_inj, Prod.mk.injEq] at h
    obtain ⟨h1, h2⟩ := h
    subst h1; subst h2
    rcases hpf : pyFloat (waitTextOf c1) with _ | w <;> simp [hpf]

theorem processRow_one {row : Tr} {k s : String} (ds : String) (acc : RD)
    (h : rowKey row = some (k, s)) :
    processRow ds 1 acc row =
      match pyFloat s with
      | some w => some (setMax k w (initIfAbsent ds k acc))
      | none => none := by
  unfold rowKey at h
  unfold processRow
  rcases htds : row.tds with _ | ⟨c0, _ | ⟨c1, cr⟩⟩
  · rw [htds] at h; simp at h
  · rw [htds] at h; simp at h
  · rw [htds] at h
    simp only [Option.some_inj, Prod.mk.injEq] at h
    obtain ⟨h1, h2⟩ := h
    subst h1; subst h2
    rcases hpf : pyFloat (waitTextOf c1) with _ | w <;> simp [hpf]

theorem processRow_big {row : Tr} {k s : String} {idx : Nat} (ds : String) (acc : RD)
    (hidx : 2 ≤ idx) (h : rowKey row = some (k, s)) :
    processRow ds idx acc row = some (initIfAbsent ds k acc) := by
  unfold rowKey at h
  unfold processRow
  rcases htds : row.tds with _ | ⟨c0, _ | ⟨c1, cr⟩⟩
  · rw [htds] at h; simp at h
  · rw [htds] at h; simp at h
  · rw [htds] at h
    simp only [Option.some_inj, Prod.mk.injEq] at h
    obtain ⟨h1, h2⟩ := h
    subst h1; subst h2
    simp [show ¬ idx = 0 by omega, show ¬ idx = 1 by omega]

theorem processRow_nodup {ds : String} {idx : Nat} {acc : RD} {row : Tr} {acc1 : RD}
    (h : processRow ds idx acc row = some acc1) (hnd : (keysOf acc).Nodup) :
    (keysOf acc1).Nodup := by
  rcases hrk : rowKey row with _ | ⟨k, s⟩
  · rw [processRow_skip ds idx acc hrk] at h
    exact Option.some_inj.mp h ▸ hnd
  · rcases Nat.lt_or_ge idx 2 with hlt | hge
    · interval_cases idx
      · rw [processRow_zero ds acc hrk] at h
        rcases hpf : pyFloat s with _ | w <;> rw [hpf] at h
        · exact absurd h (by simp)
        · rw [← Option.some_inj.mp h, keysOf_setAvg]
          exact nodup_initIfAbsent ds _ hnd
      · rw [processRow_one ds acc hrk] at h
        rcases hpf : pyFloat s with _ | w <;> rw [hpf] at h
        · exact absurd h (by simp)
        · rw [← Option.some_inj.mp h, keysOf_setMax]
          exact nodup_initIfAbsent ds _ hnd
    · rw [processRow_big ds acc hge hrk] at h
      rw [← Option.some_inj.mp h]
      exact nodup_initIfAbsent ds _ hnd

theorem processRow_keyed {ds : String} {idx : Nat} {acc : RD} {row : Tr} {acc1 : RD}
    (h : processRow ds idx acc row = some acc1) (hk : EntriesKeyed ds acc) :
    EntriesKeyed ds acc1 := by
  rcases hrk : rowKey row with _ | ⟨k, s⟩
  · rw [processRow_skip ds idx acc hrk] at h
    exact Option.some_inj.mp h ▸ hk
  · rcases Nat.lt_or_ge idx 2 with hlt | hge
    · interval_cases idx
      · rw [processRow_zero ds acc hrk] at h
        rcases hpf : pyFloat s with _ | w <;> rw [hpf] at h
        · exact absurd h (by simp)
        · exact Option.some_inj.mp h ▸
            entriesKeyed_setAvg ds _ w (entriesKeyed_initIfAbsent ds _ hk)
      · rw [processRow_one ds acc hrk] at h
        rcases hpf : pyFloat s with _ | w <;> rw [hpf] at h
        · exact absurd h (by simp)
        · exact Option.some_inj.mp h ▸
            entriesKeyed_setMax ds _ w (entriesKeyed_initIfAbsent ds _ hk)
    · rw [processRow_big ds acc hge hrk] at h
      exact Option.some_inj.mp h ▸ entriesKeyed_initIfAbsent ds _ hk

theorem processRows_nodup {ds : String} {idx : Nat} {acc : RD} {rows : List Tr} {acc1 : RD}
    (h : processRows ds idx acc rows = some acc1) (hnd : (keysOf acc).Nodup) :
    (keysOf acc1).Nodup := by
  induction rows generalizing acc with
  | nil =>
    unfold processRows at h
    exact Option.some_inj.mp h ▸ hnd
  | cons row rest ih =>
    unfold processRows at h
    rcases hpr : processRow ds idx acc row with _ | acc2 <;> rw [hpr] at h
    · exact absurd h (by simp)
    · exact ih h (processRow_nodup hpr hnd)

theorem processRows_keyed {ds : String} {idx : Nat} {acc : RD} {rows : List Tr} {acc1 : RD}
    (h : processRows ds idx acc rows = some acc1) (hk : EntriesKeyed ds acc) :
    EntriesKeyed ds acc1 := by
  induction rows generalizing acc with
  | nil =>
    unfold processRows at h
    exact Option.some_inj.mp h ▸ hk
  | cons row rest ih =>
    unfold processRows at h
    rcases hpr : processRow ds idx acc row with _ | acc2 <;> rw [hpr] at h
    · exact absurd h (by simp)
    · exact ih h (processRow_keyed hpr hk)

theorem processTablesFrom_nodup {ds : String} {idx : Nat} {acc : RD} {ts : List TableEl}
    {acc1 : RD} (h : processTablesFrom ds idx acc ts = some acc1)
    (hnd : (keysOf acc).Nodup) : (keysOf acc1).Nodup := by
  induction ts generalizing idx acc with
  | nil =>
    unfold processTablesFrom at h
    exact Option.some_inj.mp h ▸ hnd
  | cons t rest ih =>
    unfold processTablesFrom at h
    rcases hpr : processRows ds idx acc (rowsOf t) with _ | acc2 <;> rw [hpr] at h
    · exact absurd h (by simp)
    · exact ih h (processRows_nodup hpr hnd)

theorem processTablesFrom_keyed {ds : String} {idx : Nat} {acc : RD} {ts : List TableEl}
    {acc1 : RD} (h : processTablesFrom ds idx acc ts = some acc1)
    (hk : EntriesKeyed ds acc) : EntriesKeyed ds acc1 := by
  induction ts generalizing idx acc with
  | nil =>
    unfold processTablesFrom at h
    exact Option.some_inj.mp h ▸ hk
  | cons t rest ih =>
    unfold processTablesFrom at h
    rcases hpr : processRows ds idx acc (rowsOf t) with _ | acc2 <;> rw [hpr] at h
    · exact absurd h (by simp)
    · exact ih h (processRows_keyed hpr hk)

/-! ## Value tracking through the row loop -/

theorem rowAssigns_nil : rowAssigns [] = [] := rfl

theorem rowAssigns_cons_none {row : Tr} (rest : List Tr) (h : rowKey row = none) :
    rowAssigns (row :: rest) = rowAssigns rest := by
  simp [rowAssigns, List.filterMap_cons, h]

theorem rowAssigns_cons_some {row : Tr} {p : String × String} (rest : List Tr)
    (h : rowKey row = some p) : rowAssigns (row :: rest) = p :: rowAssigns rest := by
  simp [rowAssigns, List.filterMap_cons, h]

theorem lastVal_nil (x : String) : lastVal x [] = none := rfl

theorem lastVal_cons (x k s : String) (t : List (String × String)) :
    lastVal x ((k, s) :: t) =
      match lastVal x t with
      | some v => some v
      | none => if k = x then some s else none := rfl

theorem processRows_zero_lookup_none {ds x : String} {rows : List Tr} {acc acc1 : RD}
    (h : processRows ds 0 acc rows = some acc1)
    (hlv : lastVal x (rowAssigns rows) = none) :
    rdLookup x acc1 = rdLookup x acc := by
  induction rows generalizing acc with
  | nil =>
    obtain rfl := Option.some_inj.mp h
    rfl
  | cons row rest ih =>
    unfold processRows at h
    rcases hrk : rowKey row with _ | ⟨k, s0⟩
    · rw [processRow_skip ds 0 acc hrk] at h
      rw [rowAssigns_cons_none rest hrk] at hlv
      exact ih h hlv
    · rw [rowAssigns_cons_some rest hrk, lastVal_cons] at hlv
      rcases hrest : lastVal x (rowAssigns rest) with _ | v <;> rw [hrest] at hlv
      · by_cases hkx : k = x
        · rw [if_pos hkx] at hlv
          exact absurd hlv (by simp)
        · rw [processRow_zero ds acc hrk] at h
          rcases hpf : pyFloat s0 with _ | w <;> rw [hpf] at h
          · exact absurd h (by simp)
          · rw [ih h hrest, rdLookup_setAvg_ne w _ (fun hh => hkx hh.symm),
              rdLookup_initIfAbsent_ne ds _ (fun hh => hkx hh.symm)]
      · exact absurd hlv (by simp)

theorem processRows_zero_lookup_some {ds x s : String} {rows : List Tr} {acc acc1 : RD}
    (h : processRows ds 0 acc rows = some acc1)
    (hlv : lastVal x (rowAssigns rows) = some s) :
    rdLookup x acc1 =
      some { (rdLookup x acc).getD ⟨ds, x, none, none⟩ with averageWait := pyFloat s } := by
  induction rows generalizing acc with
  | nil =>
    rw [rowAssigns_nil, lastVal_nil] at hlv
    exact absurd hlv (by simp)
  | cons row rest ih =>
    unfold processRows at h
    rcases hrk : rowKey row with _ | ⟨k, s0⟩
    · rw [processRow_skip ds 0 acc hrk] at h
      rw [rowAssigns_cons_none rest hrk] at hlv
      exact ih h hlv
    · rw [rowAssigns_cons_some rest hrk, lastVal_cons] at hlv
      rw [processRow_zero ds acc hrk] at h
      rcases hpf : pyFloat s0 with _ | w <;> rw [hpf] at h
      · exact absurd h (by simp)
      · have hbase := rdLookup_initIfAbsent_self ds k acc
        rcases hrest : lastVal x (rowAssigns rest) with _ | v <;> rw [hrest] at hlv
        · by_cases hkx : k = x
          · rw [if_pos hkx] at hlv
            obtain rfl := Option.some_inj.mp hlv
            subst hkx
            rw [processRows_zero_lookup_none h hrest, rdLookup_setAvg_self, hbase,
              Option.map_some', hpf]
          · rw [if_neg hkx] at hlv
            exact absurd hlv (by simp)
        · obtain rfl := Option.some_inj.mp hlv
          rw [ih h hrest]
          by_cases hkx : k = x
          · subst hkx
            rw [rdLookup_setAvg_self, hbase, Option.map_some', Option.getD_some]
          · rw [rdLookup_setAvg_ne w _ (fun hh => hkx hh.symm),
              rdLookup_initIfAbsent_ne ds _ (fun hh => hkx hh.symm)]

theorem processRows_one_lookup_none {ds x : String} {rows : List Tr} {acc acc1 : RD}
    (h : processRows ds 1 acc rows = some acc1)
    (hlv : lastVal x (rowAssigns rows) = none) :
    rdLookup x acc1 = rdLookup x acc := by
  induction rows generalizing acc with
  | nil =>
    obtain rfl := Option.some_inj.mp h
    rfl
  | cons row rest ih =>
    unfold processRows at h
    rcases hrk : rowKey row with _ | ⟨k, s0⟩
    · rw [processRow_skip ds 1 acc hrk] at h
      rw [rowAssigns_cons_none rest hrk] at hlv
      exact ih h hlv
    · rw [rowAssigns_cons_some rest hrk, lastVal_cons] at hlv
      rcases hrest : lastVal x (rowAssigns rest) with _ | v <;> rw [hrest] at hlv
      · by_cases hkx : k = x
        · rw [if_pos hkx] at hlv
          exact absurd hlv (by simp)
        · rw [processRow_one ds acc hrk] at h
          rcases hpf : pyFloat s0 with _ | w <;> rw [hpf] at h
          · exact absurd h (by simp)
          · rw [ih h hrest, rdLookup_setMax_ne w _ (fun hh => hkx hh.symm),
              rdLookup_initIfAbsent_ne ds _ (fun hh => hkx hh.symm)]
      · exact absurd hlv (by simp)

theorem processRows_one_lookup_some {ds x s : String} {rows : List Tr} {acc acc1 : RD}
    (h : processRows ds 1 acc rows = some acc1)
    (hlv : lastVal x (rowAssigns rows) = some s) :
    rdLookup x acc1 =
      some { (rdLookup x acc).getD ⟨ds, x, none, none⟩ with maxWait := pyFloat s } := by
  induction rows generalizing acc with
  | nil =>
    rw [rowAssigns_nil, lastVal_nil] at hlv
    exact absurd hlv (by simp)
  | cons row rest ih =>
    unfold processRows at h
    rcases hrk : rowKey row with _ | ⟨k, s0⟩
    · rw [processRow_skip ds 1 acc hrk] at h
      rw [rowAssigns_cons_none rest hrk] at hlv
      exact ih h hlv
    · rw [rowAssigns_cons_some rest hrk, lastVal_cons] at hlv
      rw [processRow_one ds acc hrk] at h
      rcases hpf : pyFloat s0 with _ | w <;> rw [hpf] at h
      · exact absurd h (by simp)
      · have hbase := rdLookup_initIfAbsent_self ds k acc
        rcases hrest : lastVal x (rowAssigns rest) with _ | v <;> rw [hrest] at hlv
        · by_cases hkx : k = x
          · rw [if_pos hkx] at hlv
            obtain rfl := Option.some_inj.mp hlv
            subst hkx
            rw [processRows_one_lookup_none h hrest, rdLookup_setMax_self, hbase,
              Option.map_some', hpf]
          · rw [if_neg hkx] at hlv
            exact absurd hlv (by simp)
        · obtain rfl := Option.some_inj.mp hlv
          rw [ih h hrest]
          by_cases hkx : k = x
          · subst hkx
            rw [rdLookup_setMax_self, hbase, Option.map_some', Option.getD_some]
          · rw [rdLookup_setMax_ne w _ (fun hh => hkx hh.symm),
              rdLookup_initIfAbsent_ne ds _ (fun hh => hkx hh.symm)]

/-! ## Tables two and later never assign a value -/

theorem stepRel_trans {ds : String} {a b c : RD}
    (h1 : ∀ x, rdLookup x b = rdLookup x a ∨
      (rdLookup x a = none ∧ rdLookup x b = some ⟨ds, x, none, none⟩))
    (h2 : ∀ x, rdLookup x c = rdLookup x b ∨
      (rdLookup x b = none ∧ rdLookup x c = some ⟨ds, x, none, none⟩)) :
    ∀ x, rdLookup x c = rdLookup x a ∨
      (rdLookup x a = none ∧ rdLookup x c = some ⟨ds, x, none, none⟩) := by
  intro x
  rcases h2 x with h2x | ⟨hb, hc⟩
  · rw [h2x]
    exact h1 x
  · rcases h1 x with h1x | ⟨ha, hb'⟩
    · exact Or.inr ⟨h1x ▸ hb, hc⟩
    · rw [hb'] at hb
      exact absurd hb (by simp)

theorem processRows_big_lookup {ds : String} {idx : Nat} (hidx : 2 ≤ idx) (acc : RD)
    (rows : List Tr) :
    ∃ acc1, processRows ds idx acc rows = some acc1 ∧ ∀ x : String,
      rdLookup x acc1 = rdLookup x acc ∨
      (rdLookup x acc = none ∧ rdLookup x acc1 = some ⟨ds, x, none, none⟩) := by
  induction rows generalizing acc with
  | nil => exact ⟨acc, rfl, fun x => Or.inl rfl⟩
  | cons row rest ih =>
    rcases hrk : rowKey row with _ | ⟨k, s0⟩
    · obtain ⟨acc1, hrun, hprop⟩ := ih acc
      refine ⟨acc1, ?_, hprop⟩
      unfold processRows
      rw [processRow_skip ds idx acc hrk]
      exact hrun
    · obtain ⟨acc1, hrun, hprop⟩ := ih (initIfAbsent ds k acc)
      refine ⟨acc1, ?_, ?_⟩
      · unfold processRows
        rw [processRow_big ds acc hidx hrk]
        exact hrun
      · refine stepRel_trans (fun x => ?_) hprop
        by_cases hkx : k = x
        · subst hkx
          have hbase := rdLookup_initIfAbsent_self ds k acc
          rcases hlk : rdLookup k acc with _ | r
          · rw [hlk] at hbase
            exact Or.inr ⟨rfl, hbase⟩
          · rw [hlk] at hbase
            exact Or.inl (by rw [hbase]; rfl)
        · exact Or.inl (rdLookup_initIfAbsent_ne ds _ (fun hh => hkx hh.symm))

theorem processTablesFrom_big_lookup {ds : String} {idx : Nat} (hidx : 2 ≤ idx) (acc : RD)
    (ts : List TableEl) :
    ∃ acc1, processTablesFrom ds idx acc ts = some acc1 ∧ ∀ x : String,
      rdLookup x acc1 = rdLookup x acc ∨
      (rdLookup x acc = none ∧ rdLookup x acc1 = some ⟨ds, x, none, none⟩) := by
  induction ts generalizing idx acc with
  | nil => exact ⟨acc, rfl, fun x => Or.inl rfl⟩
  | cons t rest ih =>
    obtain ⟨acc2, hrun2, hprop2⟩ := processRows_big_lookup hidx acc (rowsOf t)
    obtain ⟨acc1, hrun1, hprop1⟩ := ih (Nat.le_succ_of_le hidx) acc2
    refine ⟨acc1, ?_, stepRel_trans hprop2 hprop1⟩
    unfold processTablesFrom
    rw [hrun2]
    exact hrun1

/-! ## A malformed wait cell in table 0 or 1 fails the whole parse -/

theorem processRows_fail {ds k s : String} {idx : Nat} {rows : List Tr} (acc : RD)
    (hidx : idx = 0 ∨ idx = 1) (hmem : (k, s) ∈ rowAssigns rows)
    (hbad : pyFloat s = none) :
    processRows ds idx acc rows = none := by
  induction rows generalizing acc with
  | nil =>
    rw [rowAssigns_nil] at hmem
    exact absurd hmem (List.not_mem_nil _)
  | cons row rest ih =>
    unfold processRows
    rcases hrk : rowKey row with _ | ⟨k0, s0⟩
    · rw [processRow_skip ds idx acc hrk]
      rw [rowAssigns_cons_none rest hrk] at hmem
      exact ih acc hmem
    · rw [rowAssigns_cons_some rest hrk] at hmem
      rcases hidx with h0 | h1
      · subst h0
        rw [processRow_zero ds acc hrk]
        rcases hpf : pyFloat s0 with _ | w
        · rfl
        · rcases List.mem_cons.mp hmem with hhead | htail
          · injection hhead with h1 h2
            rw [← h2, hbad] at hpf
            exact absurd hpf (by simp)
          · exact ih _ htail
      · subst h1
        rw [processRow_one ds acc hrk]
        rcases hpf : pyFloat s0 with _ | w
        · rfl
        · rcases List.mem_cons.mp hmem with hhead | htail
          · injection hhead with h1 h2
            rw [← h2, hbad] at hpf
            exact absurd hpf (by simp)
          · exact ih _ htail

/-! ## From the dictionary to the output records -/

theorem toRecords_nil : toRecords [] = [] := rfl

theorem toRecords_cons (k : String) (r : CalRecord) (t : RD) :
    toRecords ((k, r) :: t) = r :: toRecords t := rfl

theorem filter_toRecords_not_mem {ds x : String} {rd : RD} (hk : EntriesKeyed ds rd)
    (hx : x ∉ keysOf rd) :
    (toRecords rd).filter (fun rec => rec.ride == x) = [] := by
  induction rd with
  | nil => rfl
  | cons kr t ih =>
    obtain ⟨k, r⟩ := kr
    have hride : r.ride = k := (hk (k, r) (List.mem_cons_self _ _)).1
    rw [keysOf_cons] at hx
    have hxk : x ≠ k := fun hh => hx (hh ▸ List.mem_cons_self _ _)
    have hxt : x ∉ keysOf t := fun hh => hx (List.mem_cons_of_mem _ hh)
    rw [toRecords_cons, List.filter_cons]
    have hF : (r.ride == x) = false := by
      rw [hride]
      exact beq_eq_false_iff_ne.mpr (fun hh => hxk hh.symm)
    rw [hF]
    simp only [Bool.false_eq_true, if_false]
    exact ih (fun kr hkr => hk kr (List.mem_cons_of_mem _ hkr)) hxt

theorem toRecords_filter_eq {ds x : String} {rd : RD} {r : CalRecord}
    (hk : EntriesKeyed ds rd) (hnd : (keysOf rd).Nodup) (hlk : rdLookup x rd = some r) :
    (toRecords rd).filter (fun rec => rec.ride == x) = [r] := by
  induction rd with
  | nil => simp [rdLookup_nil] at hlk
  | cons kr t ih =>
    obtain ⟨k, r0⟩ := kr
    have hride : r0.ride = k := (hk (k, r0) (List.mem_cons_self _ _)).1
    rw [keysOf_cons, List.nodup_cons] at hnd
    rw [rdLookup_cons] at hlk
    rw [toRecords_cons, List.filter_cons]
    by_cases hkx : k = x
    · rw [if_pos hkx] at hlk
      obtain rfl := Option.some_inj.mp hlk
      have hT : (r0.ride == x) = true := by
        rw [hride]
        exact beq_iff_eq.mpr hkx
      rw [hT]
      simp only [if_true]
      rw [filter_toRecords_not_mem (fun kr hkr => hk kr (List.mem_cons_of_mem _ hkr))
        (hkx ▸ hnd.1)]
    · rw [if_neg hkx] at hlk
      have hF : (r0.ride == x) = false := by
        rw [hride]
        exact beq_eq_false_iff_ne.mpr hkx
      rw [hF]
      simp only [Bool.false_eq_true, if_false]
      exact ih (fun kr hkr => hk kr (List.mem_cons_of_mem _ hkr)) hnd.2 hlk

theorem mem_keysOf_of_lookup {x : String} {rd : RD} {r : CalRecord}
    (h : rdLookup x rd = some r) : x ∈ keysOf rd := by
  by_contra hx
  rw [rdLookup_eq_none_iff.mpr hx] at h
  exact absurd h (by simp)

theorem mem_toRecords_lookup {ds : String} {rd : RD} {r : CalRecord}
    (hk : EntriesKeyed ds rd) (hnd : (keysOf rd).Nodup) (hr : r ∈ toRecords rd) :
    rdLookup r.ride rd = some r := by
  induction rd with
  | nil => exact absurd hr (List.not_mem_nil _)
  | cons kr t ih =>
    obtain ⟨k, r0⟩ := kr
    have hride : r0.ride = k := (hk (k, r0) (List.mem_cons_self _ _)).1
    rw [keysOf_cons, List.nodup_cons] at hnd
    rw [toRecords_cons] at hr
    rcases List.mem_cons.mp hr with hhead | htail
    · subst hhead
      rw [rdLookup_cons, if_pos hride.symm]
    · have hlk := ih (fun kr hkr => hk kr (List.mem_cons_of_mem _ hkr)) hnd.2 htail
      have hmem := mem_keysOf_of_lookup hlk
      have hkne : ¬ k = r.ride := fun hh => hnd.1 (hh ▸ hmem)
      rw [rdLookup_cons, if_neg hkne]
      exact hlk

theorem map_ride_toRecords {ds : String} {rd : RD} (hk : EntriesKeyed ds rd) :
    (toRecords rd).map CalRecord.ride = keysOf rd := by
  induction rd with
  | nil => rfl
  | cons kr t ih =>
    obtain ⟨k, r⟩ := kr
    have hride : r.ride = k := (hk (k, r) (List.mem_cons_self _ _)).1
    rw [toRecords_cons, keysOf_cons, List.map_cons, hride,
      ih (fun kr hkr => hk kr (List.mem_cons_of_mem _ hkr))]

theorem toRecords_dates {ds : String} {rd : RD} (hk : EntriesKeyed ds rd) :
    ∀ rec ∈ toRecords rd, rec.date = ds := by
  intro rec hrec
  rcases List.mem_map.mp hrec with ⟨kr, hkr, heq⟩
  exact heq ▸ (hk kr hkr).2

/-! ## Inverting a successful scrape -/

theorem scrapeOk_some_inv {url today : String} {page : Page} {recs : List CalRecord}
    (h : scrapeOk url today page = ScrapeOutcome.result (some recs)) :
    ∃ rd, processTablesFrom (extract_date url today) 0 [] (filteredTables page) = some rd ∧
      recs = toRecords rd := by
  unfold scrapeOk at h
  by_cases he : (filteredTables page).isEmpty
  · rw [if_pos he] at h
    exact absurd h (by simp)
  · rw [if_neg he] at h
    rcases hpt : processTablesFrom (extract_date url today) 0 [] (filteredTables page)
      with _ | rd <;> rw [hpt] at h
    · exact absurd h (by simp [handleException])
    · replace h : (if rd.isEmpty then ScrapeOutcome.result none
          else ScrapeOutcome.result (some (toRecords rd))) =
          ScrapeOutcome.result (some recs) := h
      by_cases hrd : rd.isEmpty
      · rw [if_pos hrd] at h
        exact absurd h (by simp)
      · rw [if_neg hrd] at h
        refine ⟨rd, rfl, ?_⟩
        have hinj := ScrapeOutcome.result.inj h
        exact (Option.some_inj.mp hinj).symm

/-! ## Live collector lemmas -/

theorem pyWeekday_lt (dt : PyDateTime) : pyWeekday dt < 7 := by
  unfold pyWeekday
  have h1 : 0 ≤ Int.emod (daysFromCivil dt.year dt.month dt.day + 3) 7 :=
    Int.emod_nonneg _ (by norm_num)
  have h2 : Int.emod (daysFromCivil dt.year dt.month dt.day + 3) 7 < 7 :=
    Int.emod_lt_of_pos _ (by norm_num)
  omega

theorem lookup_day_of_week_map (w : Nat) (hw : w < 7) :
    List.lookup w day_of_week_map = some (englishWeekdayName w) := by
  interval_cases w <;> rfl

/-- The calendar-field consistency of one emitted live row: the weekday
name follows the spec's 0=Monday … 6=Sunday convention applied to the
row's own timestamp, and month/year are the timestamp's fields. -/
def LiveRowConsistent (r : LiveRow) : Prop :=
  r.day_of_week = englishWeekdayName (pyWeekday r.timestamp) ∧
  r.month = r.timestamp.month ∧ r.year = r.timestamp.year

theorem processRide_some_eq (pname : String) (ride : Ride) (ts : String)
    (hts : ride.last_updated = some ts) :
    processRide pname ride =
      match fromisoformat (replaceCharStr 'Z' ("+00:00") ts) with
      | none => RideResult.crash
      | some dt =>
        match List.lookup (pyWeekday dt) day_of_week_map with
        | none => RideResult.crash
        | some dow =>
          RideResult.emit
            ⟨pname, ride.name, ride.wait_time, dow, dt, dt.timeOfDay, dt.month, dt.year⟩ := by
  unfold processRide
  rw [hts]

theorem processRide_emit_consistent {pname : String} {ride : Ride} {row : LiveRow}
    (h : processRide pname ride = RideResult.emit row) : LiveRowConsistent row := by
  rcases hts : ride.last_updated with _ | ts
  · rw [show processRide pname ride = RideResult.skip from by unfold processRide; rw [hts]] at h
    exact absurd h (by simp)
  · rw [processRide_some_eq pname ride ts hts] at h
    rcases hdt : fromisoformat (replaceCharStr 'Z' ("+00:00") ts) with _ | dt <;> rw [hdt] at h
    · exact absurd h (by simp)
    · replace h : (match List.lookup (pyWeekday dt) day_of_week_map with
          | none => RideResult.crash
          | some dow =>
            RideResult.emit
              ⟨pname, ride.name, ride.wait_time, dow, dt, dt.timeOfDay, dt.month, dt.year⟩) =
          RideResult.emit row := h
      rw [lookup_day_of_week_map (pyWeekday dt) (pyWeekday_lt dt)] at h
      have hrow := RideResult.emit.inj h
      rw [← hrow]
      exact ⟨rfl, rfl, rfl⟩

theorem processRides_consistent {pname : String} {acc out : List LiveRow}
    {rides : List Ride} (h : processRides pname acc rides = some out)
    (hacc : ∀ r ∈ acc, LiveRowConsistent r) : ∀ r ∈ out, LiveRowConsistent r := by
  induction rides generalizing acc with
  | nil =>
    obtain rfl := Option.some_inj.mp h
    exact hacc
  | cons rr rs ih =>
    unfold processRides at h
    rcases hpr : processRide pname rr with _ | row <;> rw [hpr] at h
    · exact ih h hacc
    · refine ih h ?_
      intro r hr
      rcases List.mem_append.mp hr with hl | hsing
      · exact hacc r hl
      · rw [List.mem_singleton.mp hsing]
        exact processRide_emit_consistent hpr
    · exact absurd h (by simp)

theorem processLands_consistent {pname : String} {acc out : List LiveRow}
    {lands : List Land} (h : processLands pname acc lands = some out)
    (hacc : ∀ r ∈ acc, LiveRowConsistent r) : ∀ r ∈ out, LiveRowConsistent r := by
  induction lands generalizing acc with
  | nil =>
    obtain rfl := Option.some_inj.mp h
    exact hacc
  | cons l ls ih =>
    unfold processLands at h
    rcases hpr : processRides pname acc l.rides with _ | acc1 <;> rw [hpr] at h
    · exact absurd h (by simp)
    · exact ih h (processRides_consistent hpr hacc)

theorem collectTargets_consistent {env : Nat → ParkResp} {acc out : List LiveRow}
    {ts : List (Nat × String)} (h : collectTargets env acc ts = some out)
    (hacc : ∀ r ∈ acc, LiveRowConsistent r) : ∀ r ∈ out, LiveRowConsistent r := by
  induction ts generalizing acc with
  | nil =>
    obtain rfl := Option.some_inj.mp h
    exact hacc
  | cons p ps ih =>
    obtain ⟨park_id, park_name⟩ := p
    unfold collectTargets at h
    rcases hpr : processLands park_name acc (env park_id).lands with _ | acc1 <;>
      rw [hpr] at h
    · exact absurd h (by simp)
    · exact ih h (processLands_consistent hpr hacc)

theorem processRides_null_erase (pname nm : String) (wt : Int) (acc : List LiveRow)
    (rides1 rides2 : List Ride) :
    processRides pname acc (rides1 ++ ⟨nm, wt, none⟩ :: rides2) =
      processRides pname acc (rides1 ++ rides2) := by
  induction rides1 generalizing acc with
  | nil => rfl
  | cons rr rs ih =>
    rw [List.cons_append, List.cons_append]
    unfold processRides
    rcases hpr : processRide pname rr with _ | row
    · exact ih acc
    · exact ih _
    · rfl

/-! ## Claim theorems -/

/-- C1: the claim says `scrape_wait_times` never lets an exception escape,
including inside its own exception handlers. The code violates this: every
`RequestException` (404 or transport failure) is raised by the fetch
before `date_str` is assigned, and the handler's log f-string then raises
`UnboundLocalError`, which escapes the function. This theorem evaluates
the code at the failing inputs: both fetch-error paths crash. -/
theorem scrape_wait_times_fetch_error_escapes (url today : String) :
    scrape_wait_times url today FetchResult.notFound =
      ScrapeOutcome.crash ("UnboundLocalError") ∧
    scrape_wait_times url today FetchResult.transportError =
      ScrapeOutcome.crash ("UnboundLocalError") :=
  ⟨rfl, rfl⟩

/-- C2: the claim says a failed day (e.g. a not-found response) never
aborts a range scrape. Evaluating the code on the range 2024-01-01 to
2024-01-03: when day 2 merely yields no matching tables the run indeed
continues and concatenates days 1 and 3 chronologically (first conjunct),
but when day 2 returns HTTP 404 the `UnboundLocalError` escaping
`scrape_wait_times` aborts the whole run before day 3 is attempted
(second conjunct), contradicting the claim. -/
theorem scrape_multiple_days_notfound_aborts :
    scrape_multiple_days ("2024-01-01") ("2024-01-03") 16 envEmptyDay2 today0 =
      MultiOutcome.table (recsDay1 ++ recsDay3) ∧
    scrape_multiple_days ("2024-01-01") ("2024-01-03") 16 envNotFoundDay2 today0 =
      MultiOutcome.crash ("UnboundLocalError") := by
  exact ⟨by decide, by decide⟩

/-- C3 counterexample: the claim says a not-found response is handled and
logged ("date does not exist") distinctly from other transport errors. At
a concrete input the two produce identical outcomes — both are caught by
the same `RequestException` handler, which itself crashes on the unbound
`date_str` — so not-found is neither handled to completion nor
distinguished. -/
theorem notfound_not_distinguished_cex :
    scrape_wait_times url0 today0 FetchResult.notFound =
      scrape_wait_times url0 today0 FetchResult.transportError ∧
    scrape_wait_times url0 today0 FetchResult.notFound =
      ScrapeOutcome.crash ("UnboundLocalError") :=
  ⟨rfl, rfl⟩

/-- C3 amended: the historical scraper does not distinguish a not-found
response from other transport failures — both take the single
`RequestException` handler and produce the same outcome (which is itself
a crash, since the handler's log line reads the unbound `date_str`). -/
theorem notfound_same_as_transport (url today : String) :
    scrape_wait_times url today FetchResult.notFound =
      scrape_wait_times url today FetchResult.transportError :=
  rfl

/-- C9: the claim says a range in which no day produces data returns an
explicitly empty table. For an empty range that holds (first conjunct:
start after end yields the empty table, not null). But for a range whose
days all fail with HTTP 404 the run crashes with `UnboundLocalError`
instead of returning the empty table (second conjunct), contradicting the
claim's "every day failing" case. -/
theorem empty_or_all_failing_range :
    scrape_multiple_days ("2024-01-02") ("2024-01-01") 16 envAll404 today0 =
      MultiOutcome.table [] ∧
    scrape_multiple_days ("2024-01-01") ("2024-01-01") 16 envAll404 today0 =
      MultiOutcome.crash ("UnboundLocalError") := by
  exact ⟨by decide, by decide⟩

/-- C8: a ride whose `last_updated` is null is silently skipped — it
contributes no record, and removing it from a land's ride list leaves the
collector's output (including any later crash) unchanged, so the
remaining rides are processed exactly as before. -/
theorem null_last_updated_skipped (pname nm : String) (wt : Int) (acc : List LiveRow)
    (rides1 rides2 : List Ride) :
    processRide pname ⟨nm, wt, none⟩ = RideResult.skip ∧
    processRides pname acc (rides1 ++ ⟨nm, wt, none⟩ :: rides2) =
      processRides pname acc (rides1 ++ rides2) :=
  ⟨rfl, processRides_null_erase pname nm wt acc rides1 rides2⟩

/-- C7: every record the live collector emits has `day_of_week` equal to
the English weekday name (0=Monday … 6=Sunday convention) of its parsed
timestamp, and `month`/`year` equal to the timestamp's calendar fields. -/
theorem live_rows_calendar_fields (ts : List (Nat × String)) (env : Nat → ParkResp)
    (rows : List LiveRow) (r : LiveRow) (h : collectRows ts env = some rows)
    (hr : r ∈ rows) :
    r.day_of_week = englishWeekdayName (pyWeekday r.timestamp) ∧
    r.month = r.timestamp.month ∧ r.year = r.timestamp.year :=
  collectTargets_consistent h (fun _ h0 => absurd h0 (List.not_mem_nil _)) r hr

/-- C7 witness: the collector on a concrete one-park environment emits
exactly `row0`, and the theorem instantiated there gives its weekday
("Tuesday" for 2024-01-02), month and year consistency. -/
theorem live_rows_calendar_fields_witness :
    row0.day_of_week = englishWeekdayName (pyWeekday row0.timestamp) ∧
    row0.month = row0.timestamp.month ∧ row0.year = row0.timestamp.year :=
  live_rows_calendar_fields [(16, "Disneyland")] envLive [row0] row0 (by decide)
    (by simp)

/-- C4 counterexample: the claim says rows of a third or later table
contribute no record. On a page with three matching tables where ride
"X" appears only in the third, the output does contain a record for "X"
(with both wait fields absent): the row loop initialises a dictionary
entry before checking the table number. -/
theorem third_table_contributes_record_cex :
    scrape_wait_times url0 today0 (FetchResult.ok pageThree) =
      ScrapeOutcome.result (some [⟨"2024-01-01", "Ride A", some 10, some 25⟩,
        ⟨"2024-01-01", "X", none, none⟩]) ∧
    lastVal ("X") (tableAssigns (tblOf [("Ride A", "10")])) = none ∧
    lastVal ("X") (tableAssigns (tblOf [("Ride A", "25")])) = none := by
  exact ⟨by decide, by decide, by decide⟩

/-- C4 amended: rows of a third or later table contribute no field value —
any output record whose ride never appears in the first two matching
tables has both `averageWait` and `maxWait` absent (such rows do, however,
contribute a fully-absent record, contrary to the claim's "no record"). -/
theorem later_tables_no_values (url today : String) (page : Page) (t0 t1 : TableEl)
    (rest : List TableEl) (recs : List CalRecord) (r : CalRecord)
    (h : scrape_wait_times url today (FetchResult.ok page) =
      ScrapeOutcome.result (some recs))
    (ht : filteredTables page = t0 :: t1 :: rest)
    (h0 : lastVal r.ride (tableAssigns t0) = none)
    (h1 : lastVal r.ride (tableAssigns t1) = none)
    (hr : r ∈ recs) :
    r.averageWait = none ∧ r.maxWait = none := by
  obtain ⟨rd, hpt, hrecs⟩ := scrapeOk_some_inv h
  set ds := extract_date url today with hds
  rw [ht] at hpt
  unfold processTablesFrom at hpt
  rcases hA : processRows ds 0 [] (rowsOf t0) with _ | rd1 <;> rw [hA] at hpt
  · exact absurd hpt (by simp)
  replace hpt : processTablesFrom ds 1 rd1 (t1 :: rest) = some rd := hpt
  unfold processTablesFrom at hpt
  rcases hB : processRows ds 1 rd1 (rowsOf t1) with _ | rd2 <;> rw [hB] at hpt
  · exact absurd hpt (by simp)
  replace hpt : processTablesFrom ds 2 rd2 rest = some rd := hpt
  have hkeyed1 : EntriesKeyed ds rd1 :=
    processRows_keyed hA (fun kr hkr => absurd hkr (List.not_mem_nil _))
  have hnd1 : (keysOf rd1).Nodup :=
    processRows_nodup hA (by rw [keysOf_nil]; exact List.nodup_nil)
  have hkeyed : EntriesKeyed ds rd :=
    processTablesFrom_keyed hpt (processRows_keyed hB hkeyed1)
  have hnd : (keysOf rd).Nodup :=
    processTablesFrom_nodup hpt (processRows_nodup hB hnd1)
  have hlk : rdLookup r.ride rd = some r :=
    mem_toRecords_lookup hkeyed hnd (hrecs ▸ hr)
  have hl1 : rdLookup r.ride rd1 = none :=
    (processRows_zero_lookup_none hA h0).trans (rdLookup_nil _)
  have hl2 : rdLookup r.ride rd2 = none :=
    (processRows_one_lookup_none hB h1).trans hl1
  obtain ⟨rd', hrun', hprop⟩ := processTablesFrom_big_lookup (le_refl 2) rd2 rest
  obtain rfl : rd' = rd := Option.some_inj.mp (hrun'.symm.trans hpt)
  rcases hprop r.ride with hsame | ⟨_, hdef⟩
  · rw [hl2] at hsame
    rw [hlk] at hsame
    exact absurd hsame (by simp)
  · have hreq : r = ⟨ds, r.ride, none, none⟩ :=
      Option.some_inj.mp (hlk.symm.trans hdef)
    exact ⟨by rw [hreq], by rw [hreq]⟩

/-- C4 witness: on the three-table page, the record for ride "X" (which
appears only in the third table) has both wait fields absent. -/
theorem later_tables_no_values_witness :
    (⟨"2024-01-01", "X", none, none⟩ : CalRecord).averageWait = none ∧
    (⟨"2024-01-01", "X", none, none⟩ : CalRecord).maxWait = none :=
  later_tables_no_values url0 today0 pageThree (tblOf [("Ride A", "10")])
    (tblOf [("Ride A", "25")]) [tblOf [("X", "99")]]
    [⟨"2024-01-01", "Ride A", some 10, some 25⟩, ⟨"2024-01-01", "X", none, none⟩]
    ⟨"2024-01-01", "X", none, none⟩ (by decide) (by decide) (by decide) (by decide)
    (by decide)

/-- C5: a ride name listed in both the average table (last value parsing
to `a`) and the max table (last value parsing to `b`) yields exactly one
output record, carrying both values; the output is uniquely keyed by
(date, ride): ride names are pairwise distinct and every record carries
the single date extracted for the page. -/
theorem both_tables_one_record (url today : String) (page : Page) (t0 t1 : TableEl)
    (rest : List TableEl) (recs : List CalRecord) (x s0 s1 : String) (a b : Rat)
    (h : scrape_wait_times url today (FetchResult.ok page) =
      ScrapeOutcome.result (some recs))
    (ht : filteredTables page = t0 :: t1 :: rest)
    (h0 : lastVal x (tableAssigns t0) = some s0) (hp0 : pyFloat s0 = some a)
    (h1 : lastVal x (tableAssigns t1) = some s1) (hp1 : pyFloat s1 = some b) :
    recs.filter (fun rec => rec.ride == x) =
      [⟨extract_date url today, x, some a, some b⟩] ∧
    (recs.map CalRecord.ride).Nodup ∧
    recs.all (fun rec => rec.date == extract_date url today) = true := by
  obtain ⟨rd, hpt, hrecs⟩ := scrapeOk_some_inv h
  set ds := extract_date url today with hds
  rw [ht] at hpt
  unfold processTablesFrom at hpt
  rcases hA : processRows ds 0 [] (rowsOf t0) with _ | rd1 <;> rw [hA] at hpt
  · exact absurd hpt (by simp)
  replace hpt : processTablesFrom ds 1 rd1 (t1 :: rest) = some rd := hpt
  unfold processTablesFrom at hpt
  rcases hB : processRows ds 1 rd1 (rowsOf t1) with _ | rd2 <;> rw [hB] at hpt
  · exact absurd hpt (by simp)
  replace hpt : processTablesFrom ds 2 rd2 rest = some rd := hpt
  have hkeyed1 : EntriesKeyed ds rd1 :=
    processRows_keyed hA (fun kr hkr => absurd hkr (List.not_mem_nil _))
  have hnd1 : (keysOf rd1).Nodup :=
    processRows_nodup hA (by rw [keysOf_nil]; exact List.nodup_nil)
  have hkeyed : EntriesKeyed ds rd :=
    processTablesFrom_keyed hpt (processRows_keyed hB hkeyed1)
  have hnd : (keysOf rd).Nodup :=
    processTablesFrom_nodup hpt (processRows_nodup hB hnd1)
  have hl1 : rdLookup x rd1 = some ⟨ds, x, some a, none⟩ := by
    have hstep := processRows_zero_lookup_some hA h0
    rw [rdLookup_nil, Option.getD_none, hp0] at hstep
    exact hstep
  have hl2 : rdLookup x rd2 = some ⟨ds, x, some a, some b⟩ := by
    have hstep := processRows_one_lookup_some hB h1
    rw [hl1, Option.getD_some, hp1] at hstep
    exact hstep
  obtain ⟨rd', hrun', hprop⟩ := processTablesFrom_big_lookup (le_refl 2) rd2 rest
  have hrdeq : rd = rd' := (Option.some_inj.mp (hrun'.symm.trans hpt)).symm
  subst hrdeq
  have hlk : rdLookup x rd = some ⟨ds, x, some a, some b⟩ := by
    rcases hprop x with hsame | ⟨hnone, _⟩
    · rw [hsame, hl2]
    · rw [hl2] at hnone
      exact absurd hnone (by simp)
  subst hrecs
  refine ⟨toRecords_filter_eq hkeyed hnd hlk, ?_, ?_⟩
  · rw [map_ride_toRecords hkeyed]
    exact hnd
  · rw [List.all_eq_true]
    intro rec hrec
    exact beq_iff_eq.mpr (toRecords_dates hkeyed rec hrec)

/-- C5 witness: on the concrete page whose tables list "Ride A" at 10 and
25, the output has exactly one "Ride A" record carrying both values, with
distinct ride keys and a uniform date. -/
theorem both_tables_one_record_witness :
    recsDay1.filter (fun rec => rec.ride == "Ride A") =
      [⟨extract_date url0 today0, "Ride A", some 10, some 25⟩] ∧
    (recsDay1.map CalRecord.ride).Nodup ∧
    recsDay1.all (fun rec => rec.date == extract_date url0 today0) = true :=
  both_tables_one_record url0 today0 pageA (tblOf [("Ride A", "10")])
    (tblOf [("Ride A", "25")]) [] recsDay1 ("Ride A") ("10") ("25") 10 25 (by decide)
    (by decide) (by decide) (by decide) (by decide) (by decide)

/-- C6: a ride name that appears in only one of the two tables is never
dropped. If it appears only in the average table (last value parsing to
`a`), the output has exactly one record for it with the max field absent;
if it appears only in the max table (last value parsing to `b`), the
output has exactly one record for it with the average field absent. -/
theorem one_table_ride_kept (url today : String) (page : Page) (t0 t1 : TableEl)
    (rest : List TableEl) (recs : List CalRecord) (x : String)
    (h : scrape_wait_times url today (FetchResult.ok page) =
      ScrapeOutcome.result (some recs))
    (ht : filteredTables page = t0 :: t1 :: rest) :
    (∀ s0 : String, ∀ a : Rat, lastVal x (tableAssigns t0) = some s0 →
      pyFloat s0 = some a → lastVal x (tableAssigns t1) = none →
      recs.filter (fun rec => rec.ride == x) =
        [⟨extract_date url today, x, some a, none⟩]) ∧
    (∀ s1 : String, ∀ b : Rat, lastVal x (tableAssigns t0) = none →
      lastVal x (tableAssigns t1) = some s1 → pyFloat s1 = some b →
      recs.filter (fun rec => rec.ride == x) =
        [⟨extract_date url today, x, none, some b⟩]) := by
  obtain ⟨rd, hpt, hrecs⟩ := scrapeOk_some_inv h
  set ds := extract_date url today with hds
  rw [ht] at hpt
  unfold processTablesFrom at hpt
  rcases hA : processRows ds 0 [] (rowsOf t0) with _ | rd1 <;> rw [hA] at hpt
  · exact absurd hpt (by simp)
  replace hpt : processTablesFrom ds 1 rd1 (t1 :: rest) = some rd := hpt
  unfold processTablesFrom at hpt
  rcases hB : processRows ds 1 rd1 (rowsOf t1) with _ | rd2 <;> rw [hB] at hpt
  · exact absurd hpt (by simp)
  replace hpt : processTablesFrom ds 2 rd2 rest = some rd := hpt
  have hkeyed1 : EntriesKeyed ds rd1 :=
    processRows_keyed hA (fun kr hkr => absurd hkr (List.not_mem_nil _))
  have hnd1 : (keysOf rd1).Nodup :=
    processRows_nodup hA (by rw [keysOf_nil]; exact List.nodup_nil)
  have hkeyed : EntriesKeyed ds rd :=
    processTablesFrom_keyed hpt (processRows_keyed hB hkeyed1)
  have hnd : (keysOf rd).Nodup :=
    processTablesFrom_nodup hpt (processRows_nodup hB hnd1)
  obtain ⟨rd', hrun', hprop⟩ := processTablesFrom_big_lookup (le_refl 2) rd2 rest
  have hrdeq : rd = rd' := (Option.some_inj.mp (hrun'.symm.trans hpt)).symm
  subst hrdeq
  subst hrecs
  constructor
  · intro s0 a h0 hp0 h1
    have hl1 : rdLookup x rd1 = some ⟨ds, x, some a, none⟩ := by
      have hstep := processRows_zero_lookup_some hA h0
      rw [rdLookup_nil, Option.getD_none, hp0] at hstep
      exact hstep
    have hl2 : rdLookup x rd2 = some ⟨ds, x, some a, none⟩ :=
      (processRows_one_lookup_none hB h1).trans hl1
    have hlk : rdLookup x rd = some ⟨ds, x, some a, none⟩ := by
      rcases hprop x with hsame | ⟨hnone, _⟩
      · rw [hsame, hl2]
      · rw [hl2] at hnone
        exact absurd hnone (by simp)
    exact toRecords_filter_eq hkeyed hnd hlk
  · intro s1 b h0 h1 hp1
    have hl1 : rdLookup x rd1 = none :=
      (processRows_zero_lookup_none hA h0).trans (rdLookup_nil _)
    have hl2 : rdLookup x rd2 = some ⟨ds, x, none, some b⟩ := by
      have hstep := processRows_one_lookup_some hB h1
      rw [hl1, Option.getD_none, hp1] at hstep
      exact hstep
    have hlk : rdLookup x rd = some ⟨ds, x, none, some b⟩ := by
      rcases hprop x with hsame | ⟨hnone, _⟩
      · rw [hsame, hl2]
      · rw [hl2] at hnone
        exact absurd hnone (by simp)
    exact toRecords_filter_eq hkeyed hnd hlk

/-- C6 witness: on the page where "Ride C" appears only in the average
table (at 7), its record keeps average 7 with max absent; on the page
where "Ride B" appears only in the max table (at 40), its record keeps
max 40 with average absent. -/
theorem one_table_ride_kept_witness :
    [(⟨"2024-01-01", "Ride A", some 10, some 25⟩ : CalRecord),
     ⟨"2024-01-01", "Ride C", some 7, none⟩].filter
        (fun rec => rec.ride == "Ride C") =
      [⟨extract_date url0 today0, "Ride C", some 7, none⟩] ∧
    [(⟨"2024-01-01", "Ride A", some 10, some 25⟩ : CalRecord),
     ⟨"2024-01-01", "Ride B", none, some 40⟩].filter
        (fun rec => rec.ride == "Ride B") =
      [⟨extract_date url0 today0, "Ride B", none, some 40⟩] :=
  ⟨(one_table_ride_kept url0 today0 pageOnlyAvg
      (tblOf [("Ride A", "10"), ("Ride C", "7")]) (tblOf [("Ride A", "25")]) []
      [⟨"2024-01-01", "Ride A", some 10, some 25⟩,
       ⟨"2024-01-01", "Ride C", some 7, none⟩]
      ("Ride C") (by decide) (by decide)).1 ("7") 7 (by decide) (by decide) (by decide),
   (one_table_ride_kept url0 today0 pageOnlyMax
      (tblOf [("Ride A", "10")]) (tblOf [("Ride A", "25"), ("Ride B", "40")]) []
      [⟨"2024-01-01", "Ride A", some 10, some 25⟩,
       ⟨"2024-01-01", "Ride B", none, some 40⟩]
      ("Ride B") (by decide) (by decide)).2 ("40") 40 (by decide) (by decide) (by decide)⟩

/-- C10: a structural parse failure is all-or-nothing for the day. If the
page has no matching tables the scraper returns `None`; and if any
contributing row of the first table (average) or second table (max) has a
wait cell that fails `float` coercion, the entire day returns `None`,
regardless of how many other rows parsed successfully. -/
theorem parse_failure_day_yields_nothing (url today : String) (page : Page) :
    (filteredTables page = [] →
      scrape_wait_times url today (FetchResult.ok page) = ScrapeOutcome.result none) ∧
    (∀ t ∈ (filteredTables page).take 2, ∀ k s : String,
      (k, s) ∈ tableAssigns t → pyFloat s = none →
      scrape_wait_times url today (FetchResult.ok page) = ScrapeOutcome.result none) := by
  constructor
  · intro he
    show scrapeOk url today page = ScrapeOutcome.result none
    unfold scrapeOk
    rw [he]
    rfl
  · intro t htm k s hmem hbad
    show scrapeOk url today page = ScrapeOutcome.result none
    unfold scrapeOk
    rcases hft : filteredTables page with _ | ⟨ta, _ | ⟨tb, restt⟩⟩
    · rw [hft] at htm
      simp at htm
    · rw [hft] at htm
      simp at htm
      subst htm
      have hnone : processTablesFrom (extract_date url today) 0 [] [t] = none := by
        unfold processTablesFrom
        rw [processRows_fail ([] : RD) (Or.inl rfl) hmem hbad]
      rw [hnone]
      rfl
    · rw [hft] at htm
      simp at htm
      have hnone : processTablesFrom (extract_date url today) 0 [] (ta :: tb :: restt)
          = none := by
        rcases htm with rfl | rfl
        · unfold processTablesFrom
          rw [processRows_fail ([] : RD) (Or.inl rfl) hmem hbad]
        · unfold processTablesFrom
          rcases hA : processRows (extract_date url today) 0 [] (rowsOf ta) with _ | rd1
          · rfl
          · show processTablesFrom (extract_date url today) 1 rd1 (t :: restt) = none
            unfold processTablesFrom
            rw [processRows_fail rd1 (Or.inr rfl) hmem hbad]
      rw [hnone]
      rfl

/-- C10 witness: a page whose only table lacks the results-table class
yields `None`, and a page whose first table contains a non-numeric wait
cell ("N/A") yields `None` even though its other row is numeric. -/
theorem parse_failure_day_yields_nothing_witness :
    scrape_wait_times url0 today0 (FetchResult.ok pageNoTables) =
      ScrapeOutcome.result none ∧
    scrape_wait_times url0 today0 (FetchResult.ok pageBadCell) =
      ScrapeOutcome.result none :=
  ⟨(parse_failure_day_yields_nothing url0 today0 pageNoTables).1 (by decide),
   (parse_failure_day_yields_nothing url0 today0 pageBadCell).2
     (tblOf [("Ride A", "N/A"), ("Ride B", "10")]) (by decide) ("Ride A") ("N/A")
     (by decide) (by decide)⟩
